import Mathlib

/-!
Verification development for the document segmentation and cross-reference
resolution pipeline (`src/extraction.py` and `src/review_crossref.py`).

Python strings are modelled as `List Char` (`Str`).  Python `set` values are
modelled at two levels: the accumulated target registry (`update_targets`)
keeps `Finset Str` contents, while the resolution functions receive a
`List Str`, the iteration sequence the Python `for target in targets:` loops
actually see.  Python `float` confidences are modelled as `ℚ`: every
confidence the code manipulates is a short decimal literal, and on those the
float comparisons performed by the code agree with the rational ones.
-/

abbrev Str := List Char

/-- Python `str.strip()` whitespace set (ASCII). -/
def pyWS (c : Char) : Bool :=
  c = ' ' ∨ c = '\t' ∨ c = '\n' ∨ c = '\r' ∨ c = '\x0b' ∨ c = '\x0c'

/-- Python `s.strip()`. -/
def trimL (l : Str) : Str :=
  ((l.dropWhile pyWS).reverse.dropWhile pyWS).reverse

/-- Python `s.rstrip('.0')`: removes ALL trailing characters drawn from
the set `\x7b '.', '0' \x7d` (this is the char-class semantics of `rstrip`,
not removal of one literal ".0" suffix). -/
def rstripDot0 (l : Str) : Str :=
  (l.reverse.dropWhile (fun c => c = '.' ∨ c = '0')).reverse

/-- Python `text.split('\n\n')` (split on every non-overlapping occurrence,
scanning left to right, keeping empty pieces). -/
def splitNN : Str → List Str
  | [] => [[]]
  | '\n' :: '\n' :: rest => [] :: splitNN rest
  | c :: rest =>
    match splitNN rest with
    | [] => [[c]]
    | h :: t => (c :: h) :: t

/-- `'\n\n'.join`, the inverse of `splitNN` on its image. -/
def joinNN : List Str → Str
  | [] => []
  | [x] => x
  | x :: xs => x ++ '\n' :: '\n' :: joinNN xs

/-- Python `s.split(sep)` for a single-character separator, keeping empties. -/
def splitChar (sep : Char) : Str → List Str
  | [] => [[]]
  | c :: rest =>
    if c = sep then [] :: splitChar sep rest
    else
      match splitChar sep rest with
      | [] => [[c]]
      | h :: t => (c :: h) :: t

/-- `'.'.join`. -/
def dotJoin : List Str → Str
  | [] => []
  | [x] => x
  | x :: xs => x ++ '.' :: dotJoin xs

/-- `current_text[-overlap:] if len(current_text) > overlap else current_text`
(`extraction.py` line 453).  Python's `s[-0:]` is the whole string, hence the
inner guard. -/
def overlap_slice (ov : Nat) (l : Str) : Str :=
  if ov < l.length then (if ov = 0 then l else l.drop (l.length - ov)) else l

/-- A `Reference` dataclass instance (`review_crossref.py` lines 12-24). -/
structure Reference where
  refId : String
  chunkId : String
  referenceText : Str
  referenceType : String
  targetNumber : Str
  pageNumber : Nat
  isValid : Bool := false
  targetId : Option String := none
  confidence : ℚ := 0
  matchReason : String := ""
deriving DecidableEq, Repr

/-- `f"\x7bref_num\x7d.0"` used by fuzzy-match strategy 1. -/
def with_dot_zero (r : Str) : Str := r ++ ['.', '0']

/-- Count of positions where the two strings differ (`sum(c1 != c2 for ...)`,
over `zip`, which stops at the shorter string). -/
def diff_count (a b : Str) : Nat :=
  ((List.zip a b).filter (fun p => p.1 ≠ p.2)).length

/-- `_are_similar` (`review_crossref.py` lines 400-415): same length and
exactly one differing position, or same length `> 1` and a single
adjacent-digit transposition. -/
def are_similar (num1 num2 : Str) : Bool :=
  if num1.length = num2.length ∧ diff_count num1 num2 = 1 then true
  else if num1.length = num2.length ∧ 1 < num1.length then
    (List.range (num1.length - 1)).any (fun i =>
      decide (num1.get? i = num2.get? (i + 1)) &&
      decide (num1.get? (i + 1) = num2.get? i) &&
      decide (num1.take i = num2.take i) &&
      decide (num1.drop (i + 2) = num2.drop (i + 2)))
  else false

/-- Candidate dotted parents tried by strategy 3, longest first:
`'.'.join(parts[:i])` for `i = len(parts)-1, ..., 1`. -/
def parent_candidates (r : Str) : List Str :=
  (((List.range (splitChar '.' r).length).drop 1).reverse).map
    (fun i => dotJoin ((splitChar '.' r).take i))

/-- `ref_num.split('-')[0]`. -/
def hyphen_head (r : Str) : Str := (splitChar '-' r).headD []

/-- `ref_num.replace('-', '')`. -/
def hyphen_concat (r : Str) : Str := r.filter (fun c => c ≠ '-')

/-- `_fuzzy_match_with_confidence` (`review_crossref.py` lines 201-251).
`targets` is the iteration sequence of the Python set.  Returns
`(matched_target, confidence, reason)`. -/
def fuzzy_match_with_confidence (ref_num : Str) (targets : List Str) :
    Option Str × ℚ × String :=
  if ('.' ∉ ref_num ∧ '-' ∉ ref_num) ∧ with_dot_zero ref_num ∈ targets then
    (some (with_dot_zero ref_num), mkRat 98 100,
      "Added .0 suffix (" ++ String.mk ref_num ++ " → "
        ++ String.mk (with_dot_zero ref_num) ++ ")")
  else
    match targets.find? (fun t => rstripDot0 t == rstripDot0 ref_num) with
    | some t =>
      (some t, mkRat 97 100,
        "Numerical equivalence (" ++ String.mk ref_num ++ " ≈ " ++ String.mk t ++ ")")
    | none =>
      match (if '.' ∈ ref_num then
               (parent_candidates ref_num).find? (fun p => decide (p ∈ targets))
             else none) with
      | some p =>
        (some p, mkRat 9 10, "Parent section match (" ++ String.mk p ++ ")")
      | none =>
        if '-' ∈ ref_num ∧ hyphen_head ref_num ∈ targets then
          (some (hyphen_head ref_num), mkRat 85 100,
            "Hyphen simplification (" ++ String.mk ref_num ++ " → "
              ++ String.mk (hyphen_head ref_num) ++ ")")
        else if '-' ∈ ref_num ∧ hyphen_concat ref_num ∈ targets then
          (some (hyphen_concat ref_num), mkRat 8 10,
            "Hyphen removed (" ++ String.mk ref_num ++ " → "
              ++ String.mk (hyphen_concat ref_num) ++ ")")
        else
          match targets.find? (fun t => are_similar ref_num t) with
          | some t =>
            (some t, mkRat 7 10,
              "Similar number (" ++ String.mk ref_num ++ " → " ++ String.mk t
                ++ ", possible typo)")
          | none => (none, 0, "")

/-- `f"\x7bref.reference_type\x7d_\x7bmatched\x7d"`. -/
def target_id_of (ty : String) (num : Str) : String := ty ++ "_" ++ String.mk num

/-- The per-reference body of `validate_references` (lines 173-197).
`tgts` models `self.targets.get(ref.reference_type, set())`, giving the
iteration sequence for each type (empty for unknown types).  The
`if matched_target:` truthiness test in Python is false both for `None` and
for the empty string, which the inner `m ≠ []` test mirrors. -/
def validate_one (tgts : String → List Str) (ref : Reference) : Reference :=
  let targets := tgts ref.referenceType
  if ref.targetNumber ∈ targets then
    { ref with isValid := true,
               targetId := some (target_id_of ref.referenceType ref.targetNumber),
               confidence := 1, matchReason := "Exact match" }
  else
    match fuzzy_match_with_confidence ref.targetNumber targets with
    | (some m, conf, reason) =>
      if m ≠ [] then
        { ref with isValid := true,
                   targetId := some (target_id_of ref.referenceType m),
                   confidence := conf, matchReason := reason }
      else
        { ref with isValid := false, confidence := 0, matchReason := "No match found" }
    | (none, _, _) =>
      { ref with isValid := false, confidence := 0, matchReason := "No match found" }

/-- `validate_references` (`review_crossref.py` lines 163-199): validates each
reference in order against the target sets; the list itself is neither
extended nor shortened. -/
def validate_references (tgts : String → List Str) (refs : List Reference) :
    List Reference :=
  refs.map (validate_one tgts)

/-- The `self.targets` dict: one set of target-number strings per reference
type, keys fixed at construction (`review_crossref.py` lines 60-65). -/
structure TargetsState where
  secT : Finset Str
  figT : Finset Str
  tabT : Finset Str
  eqnT : Finset Str
deriving DecidableEq

/-- `self.targets.get(ty, set())` at the contents level. -/
def targets_of (t : TargetsState) (ty : String) : Finset Str :=
  if ty = "section" then t.secT
  else if ty = "figure" then t.figT
  else if ty = "table" then t.tabT
  else if ty = "equation" then t.eqnT
  else ∅

/-- `update_targets` (`review_crossref.py` lines 359-368):
`if ref_type in self.targets: self.targets[ref_type].update(targets)`. -/
def update_targets (t : TargetsState) (ty : String) (s : Finset Str) : TargetsState :=
  if ty = "section" then { t with secT := t.secT ∪ s }
  else if ty = "figure" then { t with figT := t.figT ∪ s }
  else if ty = "table" then { t with tabT := t.tabT ∪ s }
  else if ty = "equation" then { t with eqnT := t.eqnT ∪ s }
  else t

/-- `suggest_corrections` (lines 376-398): same-type targets similar to the
broken target number, first three in iteration order. -/
def suggest_corrections (tgts : String → List Str) (ref : Reference) : List Str :=
  (((tgts ref.referenceType).filter (fun t => are_similar ref.targetNumber t)).take 3)

/-- The fields of the dict returned by `generate_reference_report` that the
claims mention (confidence breakdown, uncertain and broken lists).  The
uncertain/broken entries are kept as the underlying references (the code
projects them to display dicts). -/
structure RefReport where
  total : Nat
  valid : Nat
  invalid : Nat
  exactMatch : Nat
  highConfidence : Nat
  mediumConfidence : Nat
  lowConfidence : Nat
  broken : Nat
  uncertain : List Reference
  brokenRefs : List (Reference × List Str)
deriving Repr

/-- `generate_reference_report` (`review_crossref.py` lines 290-357). -/
def generate_reference_report (tgts : String → List Str) (refs : List Reference) :
    RefReport where
  total := refs.length
  valid := refs.countP (fun r => r.isValid)
  invalid := refs.length - refs.countP (fun r => r.isValid)
  exactMatch := refs.countP (fun r => decide (r.confidence = 1))
  highConfidence := refs.countP (fun r => decide (mkRat 85 100 ≤ r.confidence ∧ r.confidence < 1))
  mediumConfidence := refs.countP (fun r => decide (mkRat 7 10 ≤ r.confidence ∧ r.confidence < mkRat 85 100))
  lowConfidence := refs.countP (fun r => decide (0 < r.confidence ∧ r.confidence < mkRat 7 10))
  broken := refs.countP (fun r => decide (r.confidence = 0))
  uncertain := refs.filter (fun r => decide (0 < r.confidence ∧ r.confidence < mkRat 8 10))
  brokenRefs := (refs.filter (fun r => !r.isValid)).map
    (fun r => (r, suggest_corrections tgts r))

/-- Chunk types (`chunk_type` field values used by the pipeline). -/
inductive CType
  | text
  | table
  | figure
deriving DecidableEq, Repr

/-- An `ExtractedChunk` (`extraction.py` lines 17-26).  The md5-based ids of
`_generate_chunk_id` are opaque to every claim; ids are carried as plain
strings and sub-chunk ids keep the literal `"_sub_" + index` suffix the
splitters append.  Of the metadata dict only the `sub_chunk` index is kept. -/
structure EChunk where
  chunkId : String
  content : Str
  pageStart : Nat
  pageEnd : Nat
  chunkType : CType
  sectionHierarchy : Str
  subChunk : Option Nat := none
deriving DecidableEq, Repr

/-- The configuration knobs of the fixed splitter. -/
structure ChunkCfg where
  chunkSize : Nat
  overlap : Nat
deriving DecidableEq, Repr

/-- ASCII reading of the regex class `\d` (document text is ASCII). -/
def isDigitA (c : Char) : Bool := '0' ≤ c ∧ c ≤ '9'

/-- ASCII reading of `[A-Z]`. -/
def isUpperA (c : Char) : Bool := 'A' ≤ c ∧ c ≤ 'Z'

/-- ASCII reading of `[a-z]`. -/
def isLowerA (c : Char) : Bool := 'a' ≤ c ∧ c ≤ 'z'

/-- ASCII reading of `\w`. -/
def isWordA (c : Char) : Bool := isDigitA c || isUpperA c || isLowerA c || c = '_'

/-- Consume the regex piece `\d+`; `none` when no digit leads. -/
def chomp_digits (l : Str) : Option Str :=
  if (l.takeWhile isDigitA) = [] then none else some (l.dropWhile isDigitA)

/-- Fuelled worker for `chomp_dot_groups` (structural recursion so the
kernel can evaluate it; each step consumes at least two characters, so any
fuel of at least the string length is enough). -/
def chomp_dot_groups_fuel : Nat → Str → Str
  | 0, l => l
  | fuel + 1, l =>
    match l with
    | '.' :: rest =>
      if rest.takeWhile isDigitA ≠ [] then
        chomp_dot_groups_fuel fuel (rest.dropWhile isDigitA)
      else '.' :: rest
    | l => l

/-- Consume `(?:\.\d+)*` greedily.  Backtracking never helps: after taking
fewer groups or fewer digits the next character is `'.'` or a digit, which
can satisfy neither the `\s` nor the end of the group that follows. -/
def chomp_dot_groups (l : Str) : Str := chomp_dot_groups_fuel l.length l

/-- `\s+` then one character satisfying `q`. -/
def ws_then (q : Char → Bool) (l : Str) : Bool :=
  !(l.takeWhile pyWS).isEmpty &&
    (match (l.dropWhile pyWS).head? with
     | some c => q c
     | none => false)

/-- `re.match` of `^\d+(?:\.\d+)*\s+[q]`. -/
def match_num_heading (q : Char → Bool) (l : Str) : Bool :=
  match chomp_digits l with
  | none => false
  | some r => ws_then q (chomp_dot_groups r)

/-- `re.match` of `(?:^|\n)\s*(\d+(?:\.\d+)*)\s+\w+`: since `\n` is itself
`\s`, anchoring at position 0 this is skipping `\s*` then a numeric heading
followed by a word character. -/
def match_pattern3 (l : Str) : Bool :=
  match_num_heading isWordA (l.dropWhile pyWS)

/-- `re.match` of `^KW\s+(\d+(?:\.\d+)*)`: the starred group may be empty, so
the match succeeds exactly when the keyword is followed by `\s+\d`. -/
def match_kw_heading (kw : Str) (l : Str) : Bool :=
  decide (l.take kw.length = kw) && ws_then isDigitA (l.drop kw.length)

/-- Disjunction of the five `section_patterns` of `_extract_structure`
(`extraction.py` lines 97-103), applied by `re.match`. -/
def matches_section_pattern (l : Str) : Bool :=
  match_num_heading isUpperA l || match_num_heading isLowerA l ||
  match_pattern3 l || match_kw_heading "SECTION".toList l ||
  match_kw_heading "Section".toList l

/-- One span of a text line: its text and its font size.  Font sizes are
floats compared only against the literal `12`; rationals model that
comparison exactly. -/
structure Span where
  text : Str
  size : ℚ
deriving DecidableEq

/-- One text line (the span list of a `type 0` block line). -/
structure Line where
  spans : List Span
deriving DecidableEq

/-- `"".join(span["text"] for span in line["spans"])`. -/
def line_text (ln : Line) : Str := (ln.spans.map Span.text).flatten

/-- Lines 115-120: a line updates `current_section` when it has spans, its
first span's font size exceeds 12, and a section pattern matches the
stripped text. -/
def is_heading_line (ln : Line) : Bool :=
  match ln.spans.head? with
  | none => false
  | some sp => decide ((12 : ℚ) < sp.size) && matches_section_pattern (trimL (line_text ln))

/-- The text lines of one page. -/
abbrev PageLines := List Line

/-- Folding one page's lines over `current_section` (last heading wins). -/
def page_section (cur : Str) (pg : PageLines) : Str :=
  pg.foldl (fun c ln => if is_heading_line ln then trimL (line_text ln) else c) cur

def extract_structure_aux (cur : Str) : List PageLines → List Str
  | [] => []
  | pg :: rest =>
    let c2 := page_section cur pg
    c2 :: extract_structure_aux c2 rest

/-- `_extract_structure` (`extraction.py` lines 87-124): `current_section`
starts as `""` and every page index is recorded with the value in effect
after scanning the page. -/
def extract_structure (pages : List PageLines) : List Str :=
  extract_structure_aux [] pages

/-- `structure.get(page_num, "Unknown Section")` (`extraction.py` line 142). -/
def section_for (smap : List Str) (pageNum : Nat) : Str :=
  (smap.get? pageNum).getD "Unknown Section".toList

/-- `_extract_text_from_page` (lines 126-155): one text chunk per page with
non-blank text; both page bounds are `page_num + 1`. -/
def extract_text_from_page (pageNum : Nat) (text : Str) (smap : List Str) :
    List EChunk :=
  if trimL text = [] then []
  else [{ chunkId := "page_" ++ toString pageNum, content := text,
          pageStart := pageNum + 1, pageEnd := pageNum + 1,
          chunkType := CType.text, sectionHierarchy := section_for smap pageNum }]

/-- Content built at lines 179-181: `[Figure i+1]\n` plus optional caption. -/
def figure_content (imgIndex : Nat) (caption : Option Str) : Str :=
  ("[Figure " ++ toString (imgIndex + 1) ++ "]" ++ "\n").toList ++
    (match caption with
     | some cap => "Caption: ".toList ++ cap ++ ['\n']
     | none => [])

/-- One figure chunk (`_extract_figures_from_page`, lines 157-195). -/
def extract_figure_chunk (pageNum imgIndex : Nat) (caption : Option Str) : EChunk :=
  { chunkId := "fig_" ++ toString pageNum ++ "_" ++ toString imgIndex,
    content := figure_content imgIndex caption,
    pageStart := pageNum + 1, pageEnd := pageNum + 1,
    chunkType := CType.figure,
    sectionHierarchy := ("Figure " ++ toString (imgIndex + 1)).toList }

/-- Content built at lines 238-241: `[Table i+1]\n`, optional caption, then
the markdown rendering of the table grid. -/
def table_content (tableIndex : Nat) (caption : Option Str) (tableMd : Str) : Str :=
  ("[Table " ++ toString (tableIndex + 1) ++ "]" ++ "\n").toList ++
    (match caption with
     | some cap => "Caption: ".toList ++ cap ++ ['\n', '\n']
     | none => []) ++ tableMd

/-- One table chunk (`_extract_tables`, lines 214-264). -/
def extract_table_chunk (pageNum tableIndex : Nat) (caption : Option Str)
    (tableMd : Str) : EChunk :=
  { chunkId := "tbl_" ++ toString pageNum ++ "_" ++ toString tableIndex,
    content := table_content tableIndex caption tableMd,
    pageStart := pageNum + 1, pageEnd := pageNum + 1,
    chunkType := CType.table,
    sectionHierarchy := ("Table " ++ toString (tableIndex + 1)).toList }

/-- Two consecutive newlines, the paragraph joiner. -/
def nn : Str := ['\n', '\n']

/-- Loop state of `_split_text_chunk_fixed`: the flushed chunks are kept as
`(injected overlap slice, full pre-strip buffer)` pairs; `curOv` is the
overlap slice that seeded the current buffer (`[]` for the first buffer). -/
structure SplitSt where
  pieces : List (Str × Str)
  curOv : Str
  buf : Str
deriving DecidableEq, Repr

/-- One iteration of the paragraph loop (`extraction.py` lines 436-456). -/
def step_fixed (cfg : ChunkCfg) (st : SplitSt) (para : Str) : SplitSt :=
  if cfg.chunkSize < st.buf.length + para.length ∧ st.buf ≠ [] then
    { pieces := st.pieces ++ [(st.curOv, st.buf)],
      curOv := overlap_slice cfg.overlap st.buf,
      buf := overlap_slice cfg.overlap st.buf ++ nn ++ para }
  else
    { st with buf := if st.buf = [] then para else st.buf ++ nn ++ para }

/-- The final loop state over all paragraphs of the unit. -/
def run_split (cfg : ChunkCfg) (text : Str) : SplitSt :=
  (splitNN text).foldl (step_fixed cfg) ⟨[], [], []⟩

/-- Every buffer the run builds, the final (possibly blank) one included. -/
def all_buffers (cfg : ChunkCfg) (text : Str) : List (Str × Str) :=
  (run_split cfg text).pieces ++ [((run_split cfg text).curOv, (run_split cfg text).buf)]

/-- The `(overlap, buffer)` pairs that become emitted sub-chunks: the flushed
buffers plus the final buffer when `current_text.strip()` is non-blank
(lines 458-469). -/
def split_ov_buffers (cfg : ChunkCfg) (text : Str) : List (Str × Str) :=
  (run_split cfg text).pieces ++
    (if trimL (run_split cfg text).buf ≠ []
     then [((run_split cfg text).curOv, (run_split cfg text).buf)] else [])

/-- `_split_text_chunk_fixed` (`extraction.py` lines 425-471): each emitted
sub-chunk carries the stripped buffer, the parent's page range and section,
a `_sub_i` id suffix and the zero-based sub index; an empty split falls back
to the parent chunk. -/
def split_text_chunk_fixed (cfg : ChunkCfg) (chunk : EChunk) : List EChunk :=
  if split_ov_buffers cfg chunk.content = [] then [chunk]
  else (split_ov_buffers cfg chunk.content).enum.map (fun p =>
    { chunk with content := trimL p.2.2,
                 chunkId := chunk.chunkId ++ "_sub_" ++ toString p.1,
                 subChunk := some p.1 })

/-- `_perform_intelligent_chunking` (lines 392-413) with the fixed strategy
(the configuration the claims address): tables and figures pass through,
oversized text chunks are split. -/
def perform_intelligent_chunking (cfg : ChunkCfg) (chunks : List EChunk) :
    List EChunk :=
  chunks.flatMap (fun ch =>
    if ch.chunkType = CType.table ∨ ch.chunkType = CType.figure then [ch]
    else if cfg.chunkSize < ch.content.length then split_text_chunk_fixed cfg ch
    else [ch])

/-- The inputs `extract_document` reads from one page: its text lines with
fonts (for structure), its raw text, and its image captions in order. -/
structure PageData where
  lines : PageLines
  text : Str
  figures : List (Option Str)
deriving DecidableEq

/-- One table record produced by the pdfplumber pass. -/
structure TableRec where
  pageNum : Nat
  tableIndex : Nat
  caption : Option Str
  tableMd : Str
deriving DecidableEq

/-- The pure content of `extract_document` (`extraction.py` lines 44-85)
under the fixed strategy: structure pass, per-page text and figure chunks,
table pass, then intelligent chunking. -/
def extract_document (cfg : ChunkCfg) (pages : List PageData)
    (tables : List TableRec) : List EChunk :=
  let smap := extract_structure (pages.map PageData.lines)
  let pageChunks := (pages.enum).flatMap (fun p =>
    extract_text_from_page p.1 p.2.text smap ++
      (p.2.figures.enum.map (fun fp => extract_figure_chunk p.1 fp.1 fp.2)))
  let tableChunks := tables.map
    (fun t => extract_table_chunk t.pageNum t.tableIndex t.caption t.tableMd)
  perform_intelligent_chunking cfg (pageChunks ++ tableChunks)

/-- The de-overlapped remainder of a recorded `(overlap, buffer)` pair: the
buffer with the injected overlap slice removed from its front. -/
def piece_rest (p : Str × Str) : Str := p.2.drop p.1.length

/-- The contribution of paragraphs after the first to the `'\n\n'` join. -/
def tailJoin (ps : List Str) : Str := (ps.map (fun p => nn ++ p)).flatten

/-- Reconstruction of the text consumed so far from a splitter state:
flushed buffers minus their injected overlaps, then the current buffer minus
its injected overlap. -/
def recon (st : SplitSt) : Str :=
  ((st.pieces.map piece_rest).flatten) ++ st.buf.drop st.curOv.length

/-- The mention-identity fields of a `Reference` (everything except the
resolution fields `is_valid`, `target_id`, `confidence`, `match_reason`). -/
def mention_fields (r : Reference) : String × String × Str × String × Str × Nat :=
  (r.refId, r.chunkId, r.referenceText, r.referenceType, r.targetNumber, r.pageNumber)

/-- The spec's reading of resolver tier 3, stated from the spec's words for
comparison with the code's `rstrip('.0')`: remove one trailing `".0"` suffix
and nothing else. -/
def strip_dot_zero_suffix (l : Str) : Str :=
  if l.reverse.take 2 = ['0', '.'] then l.take (l.length - 2) else l

/-- Concrete inputs for the reconstruction claims: a tiny chunk budget so a
short text already splits. -/
def c1cfg : ChunkCfg := ⟨4, 200⟩

/-- An oversized unit with a trailing space (swallowed by `strip()`). -/
def c1badText : Str := "aaaa\n\nbbbb ".toList

/-- The chunk wrapping `c1badText`. -/
def c1badChunk : EChunk :=
  { chunkId := "c1b", content := c1badText, pageStart := 1, pageEnd := 1,
    chunkType := CType.text, sectionHierarchy := [] }

/-- An oversized unit whose buffers are untouched by `strip()`. -/
def c1chunk : EChunk :=
  { chunkId := "c1", content := "aaaa\n\nbbbb".toList, pageStart := 1, pageEnd := 1,
    chunkType := CType.text, sectionHierarchy := [] }

/-- A 3000-character unit with no paragraph break. -/
def c8single : Str := List.replicate 3000 'a'

/-- The chunk wrapping `c8single`. -/
def c8schunk : EChunk :=
  { chunkId := "c8s", content := c8single, pageStart := 7, pageEnd := 7,
    chunkType := CType.text, sectionHierarchy := [] }

/-- First paragraph of the two-paragraph 3000-character scenario unit. -/
def c8p1 : Str := List.replicate 1500 'a'

/-- Second paragraph of the scenario unit (1500 + 2 + 1498 = 3000). -/
def c8p2 : Str := List.replicate 1498 'b'

/-- The two-paragraph 3000-character scenario unit. -/
def c8text : Str := c8p1 ++ nn ++ c8p2

/-- The chunk wrapping `c8text`. -/
def c8chunk : EChunk :=
  { chunkId := "c8", content := c8text, pageStart := 7, pageEnd := 7,
    chunkType := CType.text, sectionHierarchy := [] }

/-- A line that is not a heading (small font, no heading pattern). -/
def c5line : Line := ⟨[⟨"hello world. text".toList, 11⟩]⟩

/-- Two pages with no heading anywhere. -/
def c5pages : List PageLines := [[c5line], [c5line]]

/-- A target environment with a single section target `"5"`. -/
def c2tgts : String → List Str := fun ty => if ty = "section" then ["5".toList] else []

/-- A section mention of `"5"`. -/
def c2ref : Reference :=
  { refId := "r1", chunkId := "ch1", referenceText := "Section 5".toList,
    referenceType := "section", targetNumber := "5".toList, pageNumber := 2 }

/-- A target environment with a single table target `"21"`. -/
def c7tgts : String → List Str := fun ty => if ty = "table" then ["21".toList] else []

/-- A table mention of `"12"` (adjacent-digit transposition of `"21"`). -/
def c7ref : Reference :=
  { refId := "r7", chunkId := "ch7", referenceText := "Table 12".toList,
    referenceType := "table", targetNumber := "12".toList, pageNumber := 3 }

/-- A one-page document with one image and non-blank text. -/
def c10pages : List PageData :=
  [{ lines := [], text := "some page text".toList, figures := [none] }]

/-- One extracted table record. -/
def c10tables : List TableRec :=
  [{ pageNum := 0, tableIndex := 0, caption := none, tableMd := "| a |".toList }]

theorem option_some_or (a : Char) (o : Option Char) : (some a).or o = some a := rfl

theorem splitNN_nil : splitNN [] = [[]] := rfl

theorem splitNN_nn (rest : Str) : splitNN ('\n' :: '\n' :: rest) = [] :: splitNN rest := rfl

theorem splitNN_cons_ne (c : Char) (rest : Str)
    (hne : ∀ r : Str, c = '\n' → rest = '\n' :: r → False) :
    splitNN (c :: rest) = match splitNN rest with
      | [] => [[c]]
      | h :: t => (c :: h) :: t := by
  rw [splitNN.eq_def]
  split
  · rename_i heq
    exact absurd heq (by simp)
  · rename_i r heq
    injection heq with h1 h2
    exact absurd (hne r h1 h2) (fun h => h)
  · rename_i c2 rest2 hne2 heq
    injection heq with h1 h2
    subst h1; subst h2
    rfl

theorem joinNN_cons (x : Str) (xs : List Str) (h : xs ≠ []) :
    joinNN (x :: xs) = x ++ '\n' :: '\n' :: joinNN xs := by
  cases xs with
  | nil => simp at h
  | cons y ys => rfl

theorem splitNN_ne_nil (l : Str) : splitNN l ≠ [] := by
  induction l using splitNN.induct with
  | case1 => simp [splitNN_nil]
  | case2 rest ih => simp [splitNN_nn]
  | case3 c rest hne hnil ih => exact absurd hnil ih
  | case4 c rest hne h t ht ih =>
    rw [splitNN_cons_ne c rest (fun r hc hr => hne r hc hr), ht]
    simp

theorem joinNN_splitNN (l : Str) : joinNN (splitNN l) = l := by
  induction l using splitNN.induct with
  | case1 => rfl
  | case2 rest ih =>
    rw [splitNN_nn, joinNN_cons [] (splitNN rest) (splitNN_ne_nil rest), ih]
    rfl
  | case3 c rest hne hnil ih => exact absurd hnil (splitNN_ne_nil rest)
  | case4 c rest hne h t ht ih =>
    rw [splitNN_cons_ne c rest (fun r hc hr => hne r hc hr), ht]
    rw [ht] at ih
    cases t with
    | nil =>
      simp only [joinNN] at ih ⊢
      rw [ih]
    | cons u us =>
      rw [joinNN_cons (c :: h) (u :: us) (by simp),
          joinNN_cons h (u :: us) (by simp)] at *
      rw [List.cons_append, ih]

theorem splitNN_no_nl (l : Str) (h : '\n' ∉ l) : splitNN l = [l] := by
  induction l with
  | nil => rfl
  | cons c rest ih =>
    have hc : c ≠ '\n' := fun hc => h (hc ▸ List.mem_cons_self c rest)
    rw [splitNN_cons_ne c rest (fun r hcc _ => hc hcc),
        ih (fun hm => h (List.mem_cons_of_mem c hm))]

theorem splitNN_append_nn (a b : Str) (h : '\n' ∉ a) :
    splitNN (a ++ nn ++ b) = a :: splitNN b := by
  induction a with
  | nil =>
    show splitNN ('\n' :: '\n' :: b) = [] :: splitNN b
    exact splitNN_nn b
  | cons c rest ih =>
    have hc : c ≠ '\n' := fun hc => h (hc ▸ List.mem_cons_self c rest)
    have hstep : (c :: rest) ++ nn ++ b = c :: (rest ++ nn ++ b) := by simp
    rw [hstep, splitNN_cons_ne c (rest ++ nn ++ b) (fun r hcc _ => hc hcc),
        ih (fun hm => h (List.mem_cons_of_mem c hm))]

theorem dropWhile_eq_self_of_head (p : Char → Bool) (l : Str)
    (h : ∀ c, l.head? = some c → p c = false) : l.dropWhile p = l := by
  cases l with
  | nil => rfl
  | cons c rest => rw [List.dropWhile_cons, h c rfl]; simp

theorem trimL_eq_self (l : Str)
    (h1 : ∀ c, l.head? = some c → pyWS c = false)
    (h2 : ∀ c, l.getLast? = some c → pyWS c = false) : trimL l = l := by
  unfold trimL
  rw [dropWhile_eq_self_of_head pyWS l h1,
      dropWhile_eq_self_of_head pyWS l.reverse
        (fun c hc => h2 c (by rwa [List.head?_reverse] at hc)),
      List.reverse_reverse]

theorem trimL_replicate (n : Nat) (c : Char) (h : pyWS c = false) :
    trimL (List.replicate n c) = List.replicate n c := by
  unfold trimL
  rw [List.dropWhile_replicate, if_neg (by simp [h]), List.reverse_replicate,
      List.dropWhile_replicate, if_neg (by simp [h]), List.reverse_replicate]

theorem replicate_ne_nil_of_pos (n : Nat) (c : Char) (h : 0 < n) :
    List.replicate n c ≠ [] := by
  intro he
  have hl := congrArg List.length he
  rw [List.length_replicate] at hl
  simp at hl
  omega

theorem overlap_slice_length_le (ov : Nat) (l : Str) (h : 0 < ov) :
    (overlap_slice ov l).length ≤ ov := by
  unfold overlap_slice
  split_ifs with h1 h2
  · omega
  · simp only [List.length_drop]; omega
  · omega

theorem joinNN_head_tailJoin (p : Str) (ps : List Str) :
    joinNN (p :: ps) = p ++ tailJoin ps := by
  induction ps generalizing p with
  | nil => simp [joinNN, tailJoin]
  | cons q qs ih =>
    rw [joinNN_cons p (q :: qs) (by simp), ih q]
    simp [tailJoin, nn]

theorem step_fixed_invariant (cfg : ChunkCfg) (paras : List Str) (st : SplitSt)
    (hbuf : st.buf ≠ []) (hov : st.curOv.length ≤ st.buf.length) :
    (paras.foldl (step_fixed cfg) st).buf ≠ [] ∧
    (paras.foldl (step_fixed cfg) st).curOv.length
      ≤ (paras.foldl (step_fixed cfg) st).buf.length ∧
    recon (paras.foldl (step_fixed cfg) st) = recon st ++ tailJoin paras ∧
    ((paras.foldl (step_fixed cfg) st).pieces ++
        [((paras.foldl (step_fixed cfg) st).curOv,
          (paras.foldl (step_fixed cfg) st).buf)]).head?.map Prod.fst
      = (st.pieces ++ [(st.curOv, st.buf)]).head?.map Prod.fst := by
  induction paras generalizing st with
  | nil => exact ⟨hbuf, hov, by simp [tailJoin], rfl⟩
  | cons p ps ih =>
    rw [List.foldl_cons]
    by_cases hc : cfg.chunkSize < st.buf.length + p.length ∧ st.buf ≠ []
    · have hstep : step_fixed cfg st p =
        ⟨st.pieces ++ [(st.curOv, st.buf)], overlap_slice cfg.overlap st.buf,
         overlap_slice cfg.overlap st.buf ++ nn ++ p⟩ := by
        simp [step_fixed, hc]
      set ov := overlap_slice cfg.overlap st.buf with hovdef
      have h1 : (step_fixed cfg st p).buf ≠ [] := by simp [hstep, nn]
      have h2 : (step_fixed cfg st p).curOv.length ≤ (step_fixed cfg st p).buf.length := by
        simp [hstep]
      obtain ⟨g1, g2, g3, g4⟩ := ih (step_fixed cfg st p) h1 h2
      refine ⟨g1, g2, ?_, ?_⟩
      · rw [g3]
        have hrec : recon (step_fixed cfg st p) = recon st ++ (nn ++ p) := by
          simp only [hstep, recon, List.map_append, List.flatten_append]
          have hdrop : (ov ++ nn ++ p).drop ov.length = nn ++ p := by
            rw [List.append_assoc, List.drop_left]
          rw [hdrop]
          simp [piece_rest]
        rw [hrec]
        simp [tailJoin]
      · rw [g4]
        simp only [hstep]
        cases st.pieces with
        | nil => simp
        | cons a as => simp
    · have hstep : step_fixed cfg st p =
        { st with buf := st.buf ++ nn ++ p } := by
        simp only [step_fixed, if_neg hc]
        simp [if_neg hbuf]
      have h1 : (step_fixed cfg st p).buf ≠ [] := by simp [hstep, nn]
      have h2 : (step_fixed cfg st p).curOv.length ≤ (step_fixed cfg st p).buf.length := by
        simp only [hstep]
        calc st.curOv.length ≤ st.buf.length := hov
          _ ≤ (st.buf ++ nn ++ p).length := by simp
      obtain ⟨g1, g2, g3, g4⟩ := ih (step_fixed cfg st p) h1 h2
      refine ⟨g1, g2, ?_, ?_⟩
      · rw [g3]
        have hrec : recon (step_fixed cfg st p) = recon st ++ (nn ++ p) := by
          simp only [hstep, recon]
          rw [List.append_assoc, List.drop_append_of_le_length hov]
          simp
        rw [hrec]
        simp [tailJoin]
      · rw [g4]
        simp only [hstep]
        cases st.pieces with
        | nil => simp
        | cons a as => simp

theorem run_split_spec (cfg : ChunkCfg) (text p0 : Str) (ps : List Str)
    (hsplit : splitNN text = p0 :: ps) (hp0 : p0 ≠ []) :
    (run_split cfg text).buf ≠ [] ∧
    (run_split cfg text).curOv.length ≤ (run_split cfg text).buf.length ∧
    recon (run_split cfg text) = text ∧
    ((run_split cfg text).pieces ++
      [((run_split cfg text).curOv, (run_split cfg text).buf)]).head?.map Prod.fst
        = some [] := by
  unfold run_split
  rw [hsplit, List.foldl_cons]
  have hst1 : step_fixed cfg ⟨[], [], []⟩ p0 = ⟨[], [], p0⟩ := by
    simp [step_fixed]
  rw [hst1]
  obtain ⟨g1, g2, g3, g4⟩ := step_fixed_invariant cfg ps ⟨[], [], p0⟩ hp0 (by simp)
  refine ⟨g1, g2, ?_, ?_⟩
  · rw [g3]
    have hr : recon ⟨[], [], p0⟩ = p0 := by simp [recon]
    rw [hr, ← joinNN_head_tailJoin, ← hsplit, joinNN_splitNN]
  · rw [g4]; rfl

/-- C1 (amended): for an oversized unit whose first paragraph is non-empty
and whose buffers (flushed and final) are unchanged by `strip()`,
concatenating the emitted sub-chunks in order, after removing from each
sub-chunk its injected overlap slice (which is empty for the first
sub-chunk, last conjunct), exactly reproduces the unit's content.  As the
counterexample shows, the claim's unconditional form fails because every
emitted buffer passes through `strip()`. -/
theorem split_fixed_reconstruct (cfg : ChunkCfg) (ch : EChunk)
    (hsize : cfg.chunkSize < ch.content.length)
    (hhead : (splitNN ch.content).head? ≠ some [])
    (htrim : ∀ p ∈ all_buffers cfg ch.content, trimL p.2 = p.2) :
    ((split_ov_buffers cfg ch.content).map (fun p => (trimL p.2).drop p.1.length)).flatten
        = ch.content ∧
    (split_text_chunk_fixed cfg ch).map EChunk.content
        = (split_ov_buffers cfg ch.content).map (fun p => trimL p.2) ∧
    ((split_ov_buffers cfg ch.content).head?.map Prod.fst) = some [] := by
  have hsize' : 0 < ch.content.length := lt_of_le_of_lt (Nat.zero_le _) hsize
  obtain ⟨p0, ps, hsplit⟩ := List.exists_cons_of_ne_nil (splitNN_ne_nil ch.content)
  have hp0 : p0 ≠ [] := by
    intro h
    exact hhead (by rw [hsplit, h]; rfl)
  obtain ⟨g1, g2, g3, g4⟩ := run_split_spec cfg ch.content p0 ps hsplit hp0
  have hlastmem : ((run_split cfg ch.content).curOv, (run_split cfg ch.content).buf)
      ∈ all_buffers cfg ch.content := by
    unfold all_buffers
    exact List.mem_append_right _ (List.mem_singleton.mpr rfl)
  have htl : trimL (run_split cfg ch.content).buf = (run_split cfg ch.content).buf :=
    htrim _ hlastmem
  have hsb : split_ov_buffers cfg ch.content = all_buffers cfg ch.content := by
    unfold split_ov_buffers all_buffers
    rw [if_pos (by rw [htl]; exact g1)]
  have habm : ∀ p ∈ split_ov_buffers cfg ch.content, trimL p.2 = p.2 := by
    rw [hsb]; exact htrim
  refine ⟨?_, ?_, ?_⟩
  · rw [List.map_congr_left (fun p hp => by rw [habm p hp]; rfl :
        ∀ p ∈ split_ov_buffers cfg ch.content,
          (trimL p.2).drop p.1.length = piece_rest p)]
    rw [hsb]
    unfold all_buffers
    rw [List.map_append, List.flatten_append]
    simp only [List.map_cons, List.map_nil, List.flatten_cons, List.flatten_nil,
      List.append_nil]
    exact g3
  · have hne : split_ov_buffers cfg ch.content ≠ [] := by
      rw [hsb]; unfold all_buffers; simp
    unfold split_text_chunk_fixed
    rw [if_neg (by simpa using hne)]
    rw [List.map_map]
    have hcomp : (EChunk.content ∘ fun p : Nat × (Str × Str) =>
        { ch with content := trimL p.2.2,
                  chunkId := ch.chunkId ++ "_sub_" ++ toString p.1,
                  subChunk := some p.1 }) = (fun p : Nat × (Str × Str) => trimL p.2.2) := rfl
    rw [hcomp]
    rw [show (fun p : Nat × (Str × Str) => trimL p.2.2)
          = ((fun q : Str × Str => trimL q.2) ∘ Prod.snd) from rfl,
        ← List.map_map, List.enum_map_snd]
  · rw [hsb]
    unfold all_buffers
    exact g4

/-- C1 counterexample: the oversized unit `"aaaa\n\nbbbb "` (trailing space,
`chunk_size = 4`, `overlap = 200`) splits into contents `["aaaa",
"aaaa\n\nbbbb"]` with injected overlap `"aaaa"` on the second sub-chunk;
concatenating the sub-chunks with the injected overlap removed loses the
trailing space, so the original unit is not reproduced. -/
theorem c1_counterexample :
    4 < c1badText.length ∧
    (split_text_chunk_fixed c1cfg c1badChunk).map EChunk.content
      = ["aaaa".toList, "aaaa\n\nbbbb".toList] ∧
    (split_ov_buffers c1cfg c1badText).map Prod.fst = [[], "aaaa".toList] ∧
    ((split_ov_buffers c1cfg c1badText).map
        (fun p => (trimL p.2).drop p.1.length)).flatten ≠ c1badText := by
  decide

/-- C1 witness: the amended reconstruction theorem applied to the concrete
oversized unit `"aaaa\n\nbbbb"`. -/
theorem split_fixed_reconstruct_witness :
    ((split_ov_buffers c1cfg c1chunk.content).map
        (fun p => (trimL p.2).drop p.1.length)).flatten = c1chunk.content :=
  (split_fixed_reconstruct c1cfg c1chunk (by decide) (by decide) (by decide)).1

/-- C8 (amended): a 3000-character unit that splits into exactly two
paragraphs (the first non-empty, buffers unchanged by `strip()`), processed
with `chunk_size = 1500` and `overlap = 200` under the fixed strategy,
yields exactly two sub-chunks, and sub-chunk 2's content begins with the
final at-most-200 characters of sub-chunk 1's pre-overlap content (the
slice `overlap_slice 200 p1`).  As the counterexample shows, the claim's
universal form over all 3000-character units fails: a unit with no
paragraph break yields a single sub-chunk. -/
theorem split_3000_two_paragraphs (text p1 p2 : Str) (ch : EChunk)
    (hc : ch.content = text)
    (hsplit : splitNN text = [p1, p2])
    (hlen : text.length = 3000)
    (hp1 : p1 ≠ [])
    (ht1 : trimL p1 = p1)
    (ht2 : trimL (overlap_slice 200 p1 ++ nn ++ p2) = overlap_slice 200 p1 ++ nn ++ p2) :
    (split_text_chunk_fixed ⟨1500, 200⟩ ch).length = 2 ∧
    (split_text_chunk_fixed ⟨1500, 200⟩ ch).map EChunk.content
        = [p1, overlap_slice 200 p1 ++ nn ++ p2] ∧
    (overlap_slice 200 p1).length ≤ 200 ∧
    (overlap_slice 200 p1 ++ nn ++ p2).take (overlap_slice 200 p1).length
        = overlap_slice 200 p1 := by
  have htext : text = p1 ++ nn ++ p2 := by
    rw [← joinNN_splitNN text, hsplit, joinNN_cons p1 [p2] (by simp)]
    simp [joinNN, nn]
  have hsum : 1500 < p1.length + p2.length := by
    rw [htext] at hlen
    simp only [List.length_append, nn, List.length_cons, List.length_nil] at hlen
    omega
  have hrun : run_split ⟨1500, 200⟩ text =
      ⟨[([], p1)], overlap_slice 200 p1, overlap_slice 200 p1 ++ nn ++ p2⟩ := by
    unfold run_split
    rw [hsplit]
    simp only [List.foldl_cons, List.foldl_nil]
    rw [show step_fixed ⟨1500, 200⟩ ⟨[], [], []⟩ p1 = ⟨[], [], p1⟩ from by
      simp [step_fixed]]
    simp [step_fixed, hsum, hp1]
  have hbuf2 : overlap_slice 200 p1 ++ nn ++ p2 ≠ [] := by simp [nn]
  have ht2' : trimL (overlap_slice 200 p1 ++ '\n' :: '\n' :: p2)
      = overlap_slice 200 p1 ++ '\n' :: '\n' :: p2 := by
    simpa [nn] using ht2
  have ht2a : trimL (overlap_slice 200 p1 ++ (nn ++ p2))
      = overlap_slice 200 p1 ++ (nn ++ p2) := by
    simpa using ht2
  have hsb : split_ov_buffers ⟨1500, 200⟩ text =
      [([], p1), (overlap_slice 200 p1, overlap_slice 200 p1 ++ nn ++ p2)] := by
    unfold split_ov_buffers
    rw [hrun]
    simp [ht2', nn]
  have hmap : (split_text_chunk_fixed ⟨1500, 200⟩ ch).map EChunk.content
      = [p1, overlap_slice 200 p1 ++ nn ++ p2] := by
    unfold split_text_chunk_fixed
    rw [hc, hsb]
    rw [if_neg (by simp)]
    simp [List.enum, ht1, ht2, ht2a]
  refine ⟨?_, hmap, overlap_slice_length_le 200 p1 (by omega), ?_⟩
  · have hl2 := congrArg List.length hmap
    rw [List.length_map] at hl2
    simpa using hl2
  · have hassoc : overlap_slice 200 p1 ++ nn ++ p2
        = overlap_slice 200 p1 ++ (nn ++ p2) := by
      simp
    rw [hassoc, List.take_left]

/-- C8 counterexample: the 3000-character unit with no paragraph break,
with `chunk_size = 1500` and `overlap = 200`, splits into exactly ONE
sub-chunk (a single paragraph is never cut), not two. -/
theorem split_3000_single_paragraph :
    c8single.length = 3000 ∧ 1500 < c8single.length ∧
    (split_text_chunk_fixed ⟨1500, 200⟩ c8schunk).length = 1 ∧
    (split_text_chunk_fixed ⟨1500, 200⟩ c8schunk).length ≠ 2 := by
  have hlen : c8single.length = 3000 := by
    rw [c8single, List.length_replicate]
  have hne : c8single ≠ [] := by
    rw [c8single]; exact replicate_ne_nil_of_pos 3000 'a' (by omega)
  have hnl : ('\n' : Char) ∉ c8single := by
    intro h
    rw [c8single, List.mem_replicate] at h
    exact absurd h.2 (by decide)
  have hsplit : splitNN c8single = [c8single] := splitNN_no_nl _ hnl
  have htr : trimL c8single = c8single := by
    rw [c8single]; exact trimL_replicate 3000 'a' (by decide)
  have hstep1 : step_fixed ⟨1500, 200⟩ ⟨[], [], []⟩ c8single = ⟨[], [], c8single⟩ := by
    unfold step_fixed
    rw [if_neg (fun hand => hand.2 rfl)]
    rfl
  have hrun : run_split ⟨1500, 200⟩ c8single = ⟨[], [], c8single⟩ := by
    unfold run_split
    rw [hsplit, List.foldl_cons, hstep1, List.foldl_nil]
  have hsb : split_ov_buffers ⟨1500, 200⟩ c8single = [([], c8single)] := by
    unfold split_ov_buffers
    rw [hrun, if_pos (show trimL c8single ≠ [] from by rw [htr]; exact hne)]
    rfl
  have hone : (split_text_chunk_fixed ⟨1500, 200⟩ c8schunk).length = 1 := by
    unfold split_text_chunk_fixed
    rw [show c8schunk.content = c8single from rfl, hsb]
    rw [if_neg (by simp)]
    rw [List.length_map, List.enum_length]
    rfl
  exact ⟨hlen, by rw [hlen]; norm_num, hone, by rw [hone]; norm_num⟩

/-- C8 witness: the amended scenario theorem applied to the concrete unit
of a 1500-character paragraph followed by a 1498-character paragraph. -/
theorem split_3000_two_paragraphs_witness :
    (split_text_chunk_fixed ⟨1500, 200⟩ c8chunk).length = 2 ∧
    (split_text_chunk_fixed ⟨1500, 200⟩ c8chunk).map EChunk.content
        = [c8p1, overlap_slice 200 c8p1 ++ nn ++ c8p2] := by
  have hnl1 : ('\n' : Char) ∉ c8p1 := by
    intro h
    rw [c8p1, List.mem_replicate] at h
    exact absurd h.2 (by decide)
  have hnl2 : ('\n' : Char) ∉ c8p2 := by
    intro h
    rw [c8p2, List.mem_replicate] at h
    exact absurd h.2 (by decide)
  have hsplit : splitNN c8text = [c8p1, c8p2] := by
    rw [c8text, splitNN_append_nn _ _ hnl1, splitNN_no_nl _ hnl2]
  have hlen : c8text.length = 3000 := by
    rw [c8text]
    simp only [List.length_append, nn, List.length_cons, List.length_nil]
    rw [c8p1, c8p2, List.length_replicate, List.length_replicate]
  have hp1 : c8p1 ≠ [] := by
    rw [c8p1]; exact replicate_ne_nil_of_pos 1500 'a' (by omega)
  have ht1 : trimL c8p1 = c8p1 := by
    rw [c8p1]; exact trimL_replicate 1500 'a' (by decide)
  have hov : overlap_slice 200 c8p1 = List.replicate 200 'a' := by
    unfold overlap_slice
    rw [if_pos (by rw [c8p1, List.length_replicate]; omega),
        if_neg (by omega), c8p1, List.length_replicate, List.drop_replicate]
  have ht2 : trimL (overlap_slice 200 c8p1 ++ nn ++ c8p2)
      = overlap_slice 200 c8p1 ++ nn ++ c8p2 := by
    apply trimL_eq_self
    · intro c hc
      rw [hov] at hc
      simp only [List.head?_append, List.head?_replicate] at hc
      rw [if_neg (by omega)] at hc
      rw [option_some_or, option_some_or] at hc
      rw [Option.some_inj] at hc
      rw [← hc]
      decide
    · intro c hc
      rw [List.getLast?_append] at hc
      rw [show c8p2.getLast? = some 'b' from by
        rw [c8p2, List.getLast?_replicate]; rw [if_neg (by omega)]] at hc
      rw [option_some_or] at hc
      rw [Option.some_inj] at hc
      rw [← hc]
      decide
  obtain ⟨hn, hm, -, -⟩ := split_3000_two_paragraphs c8text c8p1 c8p2 c8chunk
    rfl hsplit hlen hp1 ht1 ht2
  exact ⟨hn, hm⟩

theorem page_section_no_heading (cur : Str) (pg : PageLines)
    (h : ∀ ln ∈ pg, is_heading_line ln = false) : page_section cur pg = cur := by
  induction pg generalizing cur with
  | nil => rfl
  | cons ln rest ih =>
    unfold page_section
    rw [List.foldl_cons, h ln (List.mem_cons_self _ _)]
    exact ih cur (fun l hl => h l (List.mem_cons_of_mem _ hl))

theorem extract_structure_aux_length (cur : Str) (pages : List PageLines) :
    (extract_structure_aux cur pages).length = pages.length := by
  induction pages generalizing cur with
  | nil => rfl
  | cons pg rest ih =>
    unfold extract_structure_aux
    simp only [List.length_cons]
    rw [ih]

theorem extract_structure_aux_sticky (cur : Str) (pages : List PageLines)
    (i : Nat) (pg : PageLines) (hpg : pages.get? (i + 1) = some pg)
    (hnh : ∀ ln ∈ pg, is_heading_line ln = false) :
    (extract_structure_aux cur pages).get? (i + 1)
      = (extract_structure_aux cur pages).get? i := by
  induction pages generalizing cur i with
  | nil => simp at hpg
  | cons p0 rest ih =>
    unfold extract_structure_aux
    cases i with
    | zero =>
      simp only [List.get?_cons_succ, List.get?_cons_zero] at hpg ⊢
      cases rest with
      | nil => simp at hpg
      | cons p1 rest' =>
        simp only [List.get?_cons_zero] at hpg
        injection hpg with hpg
        subst hpg
        unfold extract_structure_aux
        simp only [List.get?_cons_zero]
        rw [page_section_no_heading _ _ hnh]
    | succ j =>
      simp only [List.get?_cons_succ] at hpg ⊢
      exact ih (page_section cur p0) j hpg

theorem extract_structure_aux_blank (cur : Str) (pages : List PageLines)
    (i : Nat) (hi : i < pages.length)
    (hnh : ∀ pg ∈ pages.take (i + 1), ∀ ln ∈ pg, is_heading_line ln = false) :
    (extract_structure_aux cur pages).get? i = some cur := by
  induction pages generalizing cur i with
  | nil => simp at hi
  | cons p0 rest ih =>
    unfold extract_structure_aux
    have hc0 : page_section cur p0 = cur :=
      page_section_no_heading cur p0
        (hnh p0 (by simp [List.take_succ_cons]))
    cases i with
    | zero => simp [hc0]
    | succ j =>
      simp only [List.get?_cons_succ]
      rw [hc0]
      apply ih cur j (by simpa using hi)
      intro pg hpg
      exact hnh pg (by rw [List.take_succ_cons]; exact List.mem_cons_of_mem _ hpg)

/-- C5 (amended): the structure detector records one label per page (total
coverage); a page with no heading line keeps the previous page's label
(sticky, last-wins); and every page up to which no heading has appeared is
labelled with the EMPTY string, so its emitted chunks carry `""` — not the
sentinel `"Unknown Section"`, which is only the default for page numbers
absent from the (total) map and is therefore unreachable. -/
theorem extract_structure_total_sticky_blank (pages : List PageLines) :
    (extract_structure pages).length = pages.length ∧
    (∀ i pg, pages.get? (i + 1) = some pg →
        (∀ ln ∈ pg, is_heading_line ln = false) →
        (extract_structure pages).get? (i + 1) = (extract_structure pages).get? i) ∧
    (∀ i, i < pages.length →
        (∀ pg ∈ pages.take (i + 1), ∀ ln ∈ pg, is_heading_line ln = false) →
        (extract_structure pages).get? i = some [] ∧
        section_for (extract_structure pages) i = []) := by
  refine ⟨extract_structure_aux_length [] pages, ?_, ?_⟩
  · intro i pg hpg hnh
    exact extract_structure_aux_sticky [] pages i pg hpg hnh
  · intro i hi hnh
    have hg := extract_structure_aux_blank [] pages i hi hnh
    refine ⟨hg, ?_⟩
    unfold section_for extract_structure
    rw [hg]
    rfl

/-- C5 counterexample: a page with a single non-heading line and no earlier
heading; the text chunk emitted for it carries the empty-string section
label, not the claimed sentinel `"Unknown Section"`. -/
theorem section_label_counterexample :
    (extract_text_from_page 0 "some page text".toList
        (extract_structure c5pages)).map EChunk.sectionHierarchy = [[]] ∧
    ([] : Str) ≠ "Unknown Section".toList := by
  decide

/-- C5 witness: the amended theorem applied to the concrete two-page
heading-free document. -/
theorem extract_structure_total_sticky_blank_witness :
    (extract_structure c5pages).length = 2 ∧
    (extract_structure c5pages).get? 1 = (extract_structure c5pages).get? 0 ∧
    section_for (extract_structure c5pages) 1 = [] := by
  obtain ⟨h1, h2, h3⟩ := extract_structure_total_sticky_blank c5pages
  exact ⟨h1, h2 0 [c5line] (by decide) (by decide), (h3 1 (by decide) (by decide)).2⟩

theorem split_text_chunk_fixed_pages (cfg : ChunkCfg) (ch c : EChunk)
    (hc : c ∈ split_text_chunk_fixed cfg ch) :
    c.pageStart = ch.pageStart ∧ c.pageEnd = ch.pageEnd := by
  unfold split_text_chunk_fixed at hc
  split at hc
  · rw [List.mem_singleton] at hc
    subst hc
    exact ⟨rfl, rfl⟩
  · rw [List.mem_map] at hc
    obtain ⟨p, _, hp⟩ := hc
    subst hp
    exact ⟨rfl, rfl⟩

theorem perform_intelligent_chunking_pages (cfg : ChunkCfg) (chunks : List EChunk)
    (c : EChunk) (hc : c ∈ perform_intelligent_chunking cfg chunks) :
    ∃ ch ∈ chunks, c.pageStart = ch.pageStart ∧ c.pageEnd = ch.pageEnd := by
  unfold perform_intelligent_chunking at hc
  rw [List.mem_flatMap] at hc
  obtain ⟨ch, hch, hcin⟩ := hc
  refine ⟨ch, hch, ?_⟩
  split at hcin
  · rw [List.mem_singleton] at hcin
    subst hcin
    exact ⟨rfl, rfl⟩
  · split at hcin
    · exact split_text_chunk_fixed_pages cfg ch c hcin
    · rw [List.mem_singleton] at hcin
      subst hcin
      exact ⟨rfl, rfl⟩

/-- C10: every chunk the extraction pipeline emits — page text chunks,
figure chunks, table chunks, and every sub-chunk of a split unit — has
`page_start = page_end`: the constructors all set both bounds to
`page_num + 1` and splitting inherits the parent's bounds unchanged. -/
theorem extract_document_single_page (cfg : ChunkCfg) (pages : List PageData)
    (tables : List TableRec) (c : EChunk)
    (hc : c ∈ extract_document cfg pages tables) :
    c.pageStart = c.pageEnd := by
  unfold extract_document at hc
  obtain ⟨ch, hch, hps, hpe⟩ := perform_intelligent_chunking_pages cfg _ c hc
  rw [hps, hpe]
  rw [List.mem_append] at hch
  rcases hch with hch | hch
  · rw [List.mem_flatMap] at hch
    obtain ⟨p, _, hin⟩ := hch
    rw [List.mem_append] at hin
    rcases hin with hin | hin
    · unfold extract_text_from_page at hin
      split at hin
      · simp at hin
      · rw [List.mem_singleton] at hin
        subst hin
        rfl
    · rw [List.mem_map] at hin
      obtain ⟨fp, _, hfp⟩ := hin
      subst hfp
      rfl
  · rw [List.mem_map] at hch
    obtain ⟨t, _, ht⟩ := hch
    subst ht
    rfl

/-- C10 witness: the theorem applied to the figure chunk of a concrete
one-page document with one image and one table. -/
theorem extract_document_single_page_witness :
    (extract_figure_chunk 0 0 none).pageStart = (extract_figure_chunk 0 0 none).pageEnd :=
  extract_document_single_page ⟨1500, 200⟩ c10pages c10tables _ (by decide)

/-- C2: a reference whose `target_number` is literally a member of the
target set of its reference type is validated with `is_valid = true`,
confidence exactly `1.0`, and the exact-match reason. -/
theorem validate_references_exact (tgts : String → List Str) (refs : List Reference)
    (i : Nat) (ref : Reference) (hget : refs[i]? = some ref)
    (hmem : ref.targetNumber ∈ tgts ref.referenceType) :
    ∃ out, (validate_references tgts refs)[i]? = some out ∧
      out.isValid = true ∧ out.confidence = 1 ∧ out.matchReason = "Exact match" := by
  refine ⟨validate_one tgts ref, ?_, ?_, ?_, ?_⟩
  · unfold validate_references
    rw [List.getElem?_map, hget]
    rfl
  · unfold validate_one
    rw [if_pos hmem]
  · unfold validate_one
    rw [if_pos hmem]
  · unfold validate_one
    rw [if_pos hmem]

/-- C2 witness: the exact-match theorem applied to the concrete section
mention `"5"` against the target set containing `"5"`. -/
theorem validate_references_exact_witness :
    ∃ out, (validate_references c2tgts [c2ref])[0]? = some out ∧
      out.isValid = true ∧ out.confidence = 1 ∧ out.matchReason = "Exact match" :=
  validate_references_exact c2tgts [c2ref] 0 c2ref (by decide) (by decide)

theorem validate_one_mention (tgts : String → List Str) (r : Reference) :
    mention_fields (validate_one tgts r) = mention_fields r := by
  unfold validate_one
  dsimp only []
  split
  · rfl
  · split
    · split <;> rfl
    · rfl

/-- C9: `validate_references` changes only the resolution fields of each
reference: the list keeps its length, and the mention-identity fields
(ref_id, chunk_id, reference_text, reference_type, target_number,
page_number) of every entry are unchanged. -/
theorem validate_references_frame (tgts : String → List Str) (refs : List Reference) :
    (validate_references tgts refs).length = refs.length ∧
    (validate_references tgts refs).map mention_fields = refs.map mention_fields := by
  constructor
  · unfold validate_references
    exact List.length_map _ _
  · unfold validate_references
    rw [List.map_map]
    exact List.map_congr_left (fun r _ => validate_one_mention tgts r)

theorem update_targets_mono (t : TargetsState) (ty tyq : String) (s : Finset Str) :
    targets_of t tyq ⊆ targets_of (update_targets t ty s) tyq := by
  unfold update_targets targets_of
  split_ifs <;> simp_all

theorem update_targets_idem (t : TargetsState) (ty : String) (s : Finset Str) :
    update_targets (update_targets t ty s) ty s = update_targets t ty s := by
  unfold update_targets
  split_ifs <;> simp_all [Finset.union_assoc, Finset.union_self]

theorem update_targets_comm (t : TargetsState) (ty₁ ty₂ : String) (s₁ s₂ : Finset Str) :
    update_targets (update_targets t ty₁ s₁) ty₂ s₂
      = update_targets (update_targets t ty₂ s₂) ty₁ s₁ := by
  unfold update_targets
  split_ifs <;> simp_all [Finset.union_right_comm, Finset.union_comm s₁ s₂]

/-- C6: `update_targets` is an idempotent, monotone, order-independent set
union for every reference type (the unknown-type case is a no-op and keeps
all four properties): the per-type set after an update contains the set
before it (so its size never decreases), repeating an update changes
nothing, and two updates commute. -/
theorem update_targets_spec (t : TargetsState) (ty tyq ty₁ ty₂ : String)
    (s s₁ s₂ : Finset Str) :
    targets_of t tyq ⊆ targets_of (update_targets t ty s) tyq ∧
    (targets_of t tyq).card ≤ (targets_of (update_targets t ty s) tyq).card ∧
    update_targets (update_targets t ty s) ty s = update_targets t ty s ∧
    update_targets (update_targets t ty₁ s₁) ty₂ s₂
      = update_targets (update_targets t ty₂ s₂) ty₁ s₁ :=
  ⟨update_targets_mono t ty tyq s,
   Finset.card_le_card (update_targets_mono t ty tyq s),
   update_targets_idem t ty s,
   update_targets_comm t ty₁ ty₂ s₁ s₂⟩

/-- C7: the table mention `"12"` against target set `{"21"}` resolves at
the near-miss tier with confidence `0.70` and `is_valid = true` (adjacent
digit transposition), and the resulting reference lands in the report's
`uncertain_references` list (`0 < confidence < 0.80`). -/
theorem table_transposition_uncertain :
    ((validate_references c7tgts [c7ref]).map (fun r => (r.isValid, r.confidence)))
        = [(true, mkRat 7 10)] ∧
    (generate_reference_report c7tgts
        (validate_references c7tgts [c7ref])).uncertain.map Reference.refId = ["r7"] := by
  decide

/-- C4 (amended): when tier 1 (exact) and tier 2 (append `".0"`) fail, the
resolver returns confidence `0.97` with target `t` exactly when `t` is the
FIRST target in iteration order whose `rstrip('.0')` — removal of ALL
trailing `'.'` and `'0'` characters, not of one `".0"` suffix — equals that
of the mention.  The counterexample shows the claim's single-suffix reading
is refuted by mention `"5"` against target `"500"`. -/
theorem fuzzy_tier3_rstrip (r : Str) (ts : List Str) (t : Str)
    (h2 : ¬ (('.' ∉ r ∧ '-' ∉ r) ∧ with_dot_zero r ∈ ts)) :
    ((fuzzy_match_with_confidence r ts).1 = some t ∧
     (fuzzy_match_with_confidence r ts).2.1 = mkRat 97 100)
      ↔ ts.find? (fun t2 => rstripDot0 t2 == rstripDot0 r) = some t := by
  unfold fuzzy_match_with_confidence
  rw [if_neg h2]
  cases hf : ts.find? (fun t2 => rstripDot0 t2 == rstripDot0 r) with
  | some t1 => simp
  | none =>
    simp only []
    constructor
    · rintro ⟨h1, hconf⟩
      exfalso
      rcases hp : (if '.' ∈ r then
          (parent_candidates r).find? (fun p => decide (p ∈ ts)) else none) with _ | p
      · rw [hp] at h1 hconf
        by_cases hh1 : '-' ∈ r ∧ hyphen_head r ∈ ts
        · rw [if_pos hh1] at hconf
          dsimp only [] at hconf
          exact absurd hconf (by decide)
        · rw [if_neg hh1] at h1 hconf
          by_cases hh2 : '-' ∈ r ∧ hyphen_concat r ∈ ts
          · rw [if_pos hh2] at hconf
            dsimp only [] at hconf
            exact absurd hconf (by decide)
          · rw [if_neg hh2] at h1 hconf
            cases hf5 : ts.find? (fun t2 => are_similar r t2) with
            | some t5 =>
              rw [hf5] at hconf
              dsimp only [] at hconf
              exact absurd hconf (by decide)
            | none =>
              rw [hf5] at h1
              dsimp only [] at h1
              simp at h1
      · rw [hp] at hconf
        dsimp only [] at hconf
        exact absurd hconf (by decide)
    · intro h
      simp at h

/-- C4 counterexample: for mention `"5"` and targets `{"500"}` tiers 1 and
2 fail and the code returns confidence `0.97` matching `"500"`, although
removing one trailing `".0"` suffix leaves `"5"` and `"500"`, which are not
equal — refuting the claim's characterisation of tier 3. -/
theorem tier3_rstrip_counterexample :
    ("5".toList ∉ ["500".toList]) ∧
    (¬ (('.' ∉ "5".toList ∧ '-' ∉ "5".toList) ∧
        with_dot_zero "5".toList ∈ ["500".toList])) ∧
    (fuzzy_match_with_confidence "5".toList ["500".toList]).2.1 = mkRat 97 100 ∧
    (fuzzy_match_with_confidence "5".toList ["500".toList]).1 = some "500".toList ∧
    strip_dot_zero_suffix "5".toList = "5".toList ∧
    strip_dot_zero_suffix "500".toList = "500".toList ∧
    "5".toList ≠ "500".toList := by
  decide

/-- C4 witness: the amended theorem applied to mention `"13"` and targets
`{"130"}`, whose rstrip-images agree. -/
theorem fuzzy_tier3_rstrip_witness :
    (fuzzy_match_with_confidence "13".toList ["130".toList]).1 = some "130".toList ∧
    (fuzzy_match_with_confidence "13".toList ["130".toList]).2.1 = mkRat 97 100 :=
  (fuzzy_tier3_rstrip "13".toList ["130".toList] "130".toList (by decide)).mpr (by decide)

theorem find?_isSome_of_mem_equiv (p : Str → Bool) (l1 l2 : List Str)
    (h : ∀ x, x ∈ l1 ↔ x ∈ l2) :
    (l1.find? p).isSome = (l2.find? p).isSome := by
  rw [Bool.eq_iff_iff, List.find?_isSome, List.find?_isSome]
  constructor
  · rintro ⟨x, hx, hp⟩
    exact ⟨x, (h x).mp hx, hp⟩
  · rintro ⟨x, hx, hp⟩
    exact ⟨x, (h x).mpr hx, hp⟩

theorem find?_congr_pred (p q : Str → Bool) (l : List Str) (h : ∀ x, p x = q x) :
    l.find? p = l.find? q := by
  induction l with
  | nil => rfl
  | cons a as ih =>
    rw [List.find?_cons, List.find?_cons, h a]
    cases q a
    · exact ih
    · rfl

/-- C3 (amended): for membership-equal target sequences the resolver's
confidence and success are identical — every tier fires under the same
conditions — but the MATCHED TARGET may differ, because the code iterates
the Python set directly with no fixed candidate ordering, so tiers that
scan targets (2 and 6) return whichever equally-good candidate iteration
order presents first.  The counterexample refutes the claim's full
determinism over differently-ordered equal sets. -/
theorem fuzzy_conf_set_independent (r : Str) (l1 l2 : List Str)
    (h : ∀ x, x ∈ l1 ↔ x ∈ l2) :
    (fuzzy_match_with_confidence r l1).2.1 = (fuzzy_match_with_confidence r l2).2.1 ∧
    (fuzzy_match_with_confidence r l1).1.isSome
      = (fuzzy_match_with_confidence r l2).1.isSome := by
  unfold fuzzy_match_with_confidence
  have h1 : (('.' ∉ r ∧ '-' ∉ r) ∧ with_dot_zero r ∈ l1)
      ↔ (('.' ∉ r ∧ '-' ∉ r) ∧ with_dot_zero r ∈ l2) :=
    and_congr Iff.rfl (h _)
  by_cases hc1 : ('.' ∉ r ∧ '-' ∉ r) ∧ with_dot_zero r ∈ l1
  · rw [if_pos hc1, if_pos (h1.mp hc1)]
    exact ⟨rfl, rfl⟩
  · rw [if_neg hc1, if_neg (fun hx => hc1 (h1.mpr hx))]
    have h2 := find?_isSome_of_mem_equiv (fun t => rstripDot0 t == rstripDot0 r) l1 l2 h
    cases hf1 : l1.find? (fun t => rstripDot0 t == rstripDot0 r) with
    | some t1 =>
      rw [hf1] at h2
      obtain ⟨t2, hf2⟩ := Option.isSome_iff_exists.mp (by rw [← h2]; rfl)
      rw [hf2]
      exact ⟨rfl, rfl⟩
    | none =>
      rw [hf1] at h2
      have hf2 : l2.find? (fun t => rstripDot0 t == rstripDot0 r) = none :=
        Option.not_isSome_iff_eq_none.mp (by rw [← h2]; simp)
      rw [hf2]
      have h3 : (if '.' ∈ r then
            (parent_candidates r).find? (fun p => decide (p ∈ l1)) else none)
          = (if '.' ∈ r then
            (parent_candidates r).find? (fun p => decide (p ∈ l2)) else none) := by
        by_cases hd : '.' ∈ r
        · rw [if_pos hd, if_pos hd,
            find?_congr_pred _ _ _ (fun x => decide_eq_decide.mpr (h x))]
        · rw [if_neg hd, if_neg hd]
      rw [h3]
      cases hp : (if '.' ∈ r then
          (parent_candidates r).find? (fun p => decide (p ∈ l2)) else none) with
      | some p => exact ⟨rfl, rfl⟩
      | none =>
        have h4a : ('-' ∈ r ∧ hyphen_head r ∈ l1) ↔ ('-' ∈ r ∧ hyphen_head r ∈ l2) :=
          and_congr Iff.rfl (h _)
        by_cases hh1 : '-' ∈ r ∧ hyphen_head r ∈ l1
        · rw [if_pos hh1, if_pos (h4a.mp hh1)]
          exact ⟨rfl, rfl⟩
        · rw [if_neg hh1, if_neg (fun hx => hh1 (h4a.mpr hx))]
          have h4b : ('-' ∈ r ∧ hyphen_concat r ∈ l1)
              ↔ ('-' ∈ r ∧ hyphen_concat r ∈ l2) :=
            and_congr Iff.rfl (h _)
          by_cases hh2 : '-' ∈ r ∧ hyphen_concat r ∈ l1
          · rw [if_pos hh2, if_pos (h4b.mp hh2)]
            exact ⟨rfl, rfl⟩
          · rw [if_neg hh2, if_neg (fun hx => hh2 (h4b.mpr hx))]
            have h5 := find?_isSome_of_mem_equiv (fun t => are_similar r t) l1 l2 h
            cases hf5 : l1.find? (fun t => are_similar r t) with
            | some t5 =>
              rw [hf5] at h5
              obtain ⟨t6, hf6⟩ := Option.isSome_iff_exists.mp (by rw [← h5]; rfl)
              rw [hf6]
              exact ⟨rfl, rfl⟩
            | none =>
              rw [hf5] at h5
              have hf6 : l2.find? (fun t => are_similar r t) = none :=
                Option.not_isSome_iff_eq_none.mp (by rw [← h5]; simp)
              rw [hf6]
              exact ⟨rfl, rfl⟩

/-- C3 counterexample: the two orderings of the same two-element target set
`{"13", "11"}` make the resolver return different matched targets for
mention `"12"` (two equally-good tier-6 candidates), refuting
order-independent determinism of the matched target. -/
theorem fuzzy_order_counterexample :
    (∀ x : Str, x ∈ ["13".toList, "11".toList] ↔ x ∈ ["11".toList, "13".toList]) ∧
    (fuzzy_match_with_confidence "12".toList ["13".toList, "11".toList]).1
      ≠ (fuzzy_match_with_confidence "12".toList ["11".toList, "13".toList]).1 := by
  constructor
  · intro x
    simp [List.mem_cons, or_comm]
  · decide

/-- C3 witness: the amended theorem applied to the two orderings of
`{"13", "11"}`; the confidences coincide. -/
theorem fuzzy_conf_set_independent_witness :
    (fuzzy_match_with_confidence "12".toList ["13".toList, "11".toList]).2.1
      = (fuzzy_match_with_confidence "12".toList ["11".toList, "13".toList]).2.1 :=
  (fuzzy_conf_set_independent "12".toList _ _
    (fun x => by simp [List.mem_cons, or_comm])).1
